import Mathlib

/-!
Verification development for the stock-analysis repository
(`indonesia_stock_analysis.py` and `stock_analysis.py`).

The Python code computes over IEEE floats via pandas/numpy.  The embedding
uses exact rationals (`ℚ`) together with an explicit value type `FVal` that
records the three non-finite float outcomes the code can produce (`+inf`,
`-inf`, `NaN`); divisions follow IEEE semantics (`x/0 = ±inf` for `x ≠ 0`,
`0/0 = NaN`, operations on `NaN` propagate `NaN`).
-/

/-- Value of a float-valued cell: a finite rational, `+inf`, `-inf`, or `NaN`.
Mirrors the outcomes numpy float arithmetic can produce in this program. -/
inductive FVal where
  | fin : ℚ → FVal
  | inf : FVal
  | ninf : FVal
  | nan : FVal
deriving DecidableEq, Repr

/-- Division of finite floats with IEEE zero-denominator semantics:
`x / 0` is `+inf` or `-inf` according to the sign of `x`, and `0 / 0` is NaN. -/
def qdiv (x y : ℚ) : FVal :=
  if y = 0 then (if x = 0 then FVal.nan else if 0 < x then FVal.inf else FVal.ninf)
  else FVal.fin (x / y)

/-- Negation on float values. -/
def FVal.neg : FVal → FVal
  | .fin a => .fin (-a)
  | .inf => .ninf
  | .ninf => .inf
  | .nan => .nan

/-- Addition on float values (IEEE: NaN propagates, `inf + (-inf) = NaN`). -/
def FVal.add : FVal → FVal → FVal
  | .nan, _ => .nan
  | _, .nan => .nan
  | .inf, .ninf => .nan
  | .ninf, .inf => .nan
  | .inf, _ => .inf
  | _, .inf => .inf
  | .ninf, _ => .ninf
  | _, .ninf => .ninf
  | .fin a, .fin b => .fin (a + b)

/-- Subtraction on float values. -/
def FVal.sub (x y : FVal) : FVal := x.add y.neg

/-- Absolute value on float values. -/
def FVal.abs : FVal → FVal
  | .fin a => .fin |a|
  | .nan => .nan
  | _ => .inf

/-- Multiplication of a float value by a positive literal constant of the
program (`100`, `0.3`, ...): infinities keep their sign, NaN propagates. -/
def FVal.mulC (x : FVal) (c : ℚ) : FVal :=
  match x with
  | .fin a => .fin (a * c)
  | .inf => .inf
  | .ninf => .ninf
  | .nan => .nan

/-- Division of a float value by a positive literal constant of the program
(`10`, `5`, `2`): infinities keep their sign, NaN propagates. -/
def FVal.divC (x : FVal) (c : ℚ) : FVal :=
  match x with
  | .fin a => .fin (a / c)
  | .inf => .inf
  | .ninf => .ninf
  | .nan => .nan

/-- IEEE strict comparison used by Python `min`/`max` and `sorted`:
every comparison against NaN is false. -/
def FVal.blt : FVal → FVal → Bool
  | .nan, _ => false
  | _, .nan => false
  | .ninf, .ninf => false
  | .ninf, _ => true
  | _, .ninf => false
  | .fin a, .fin b => decide (a < b)
  | .fin _, .inf => true
  | .inf, _ => false

/-- Total comparison used to order sort keys in the embedding.  On non-NaN
values it agrees with the IEEE order (so with Python comparisons); NaN is
placed below everything, a modelling choice — the behaviour of Python`s sort
on NaN keys is unspecified, and every claim about the ranking is stated for
finite scores only. -/
def FVal.ble : FVal → FVal → Bool
  | .nan, _ => true
  | _, .nan => false
  | .ninf, _ => true
  | _, .ninf => false
  | .fin a, .fin b => decide (a ≤ b)
  | .fin _, .inf => true
  | .inf, .fin _ => false
  | .inf, .inf => true

/-- Python `min(x, c)` (line 138/142/148/153 idiom `min(expr, 10)`):
returns `c` only when `c < x`, so `min(NaN, c) = NaN`. -/
def pymin (x : FVal) (c : ℚ) : FVal :=
  if FVal.blt (FVal.fin c) x then FVal.fin c else x

/-- Python `max(c, x)` (line 148 idiom `max(0, expr)`):
returns `x` only when `c < x`, so `max(c, NaN) = c`. -/
def pymax (c : ℚ) (x : FVal) : FVal :=
  if FVal.blt (FVal.fin c) x then x else FVal.fin c

/-- Percentage-change formula `(new − old) / old * 100` used throughout
`calculate_metrics` (lines 81, 83, 88, 116, 117). -/
def pct (old new : ℚ) : FVal := (qdiv (new - old) old).mulC 100

/-- One symbol`s fetched time series (a pandas DataFrame in the source):
per-bar dates, closes and volumes, plus the derived `Returns` column which
line 77 of `calculate_metrics` adds in place (absent on a freshly fetched
frame). -/
structure Frame where
  dates : List ℕ
  closes : List ℚ
  volumes : List ℚ
  returnsCol : Option (List FVal) := none
deriving DecidableEq, Repr

/-- TimeSeries invariant of the data model: strictly increasing dates,
no negative volume, positive closes, one row per column. -/
def TimeSeriesInv (f : Frame) : Prop :=
  List.Chain' (· < ·) f.dates ∧ (∀ v ∈ f.volumes, 0 ≤ v) ∧ (∀ c ∈ f.closes, 0 < c) ∧
    f.dates.length = f.closes.length ∧ f.volumes.length = f.closes.length

/-- Embedding of `Series.pct_change()` (line 77): NaN at position 0, then
`(cur − prev)/prev` with IEEE zero-denominator semantics. -/
def pctChange (closes : List ℚ) : List FVal :=
  match closes with
  | [] => []
  | _ :: _ => FVal.nan :: (closes.zip closes.tail).map (fun p => qdiv (p.2 - p.1) p.1)

/-- Consecutive close-to-close differences, `Series.diff()` (line 99) minus
its leading NaN (which `where(delta > 0, 0)` on lines 100-101 turns into 0). -/
def deltas (closes : List ℚ) : List ℚ :=
  (closes.zip closes.tail).map (fun p => p.2 - p.1)

/-- Embedding of `delta.where(delta > 0, 0)` (line 100): the up-moves, with the leading
NaN of `diff()` replaced by 0 (a false comparison against NaN selects the
fill value). -/
def gains (closes : List ℚ) : List ℚ :=
  match closes with
  | [] => []
  | _ :: _ => 0 :: (deltas closes).map (fun d => if 0 < d then d else 0)

/-- Embedding of `(-delta.where(delta < 0, 0))` (line 101): the down-moves as positive
numbers, leading NaN replaced by 0. -/
def losses (closes : List ℚ) : List ℚ :=
  match closes with
  | [] => []
  | _ :: _ => 0 :: (deltas closes).map (fun d => if d < 0 then -d else 0)

/-- Last entry of `Series.rolling(window=w).mean()`: the mean of the last `w`
entries when at least `w` exist, NaN (`none`) otherwise.  The source reads
only `.iloc[-1]` of each rolling mean (lines 95, 96, 104). -/
def rollingMeanLast (w : ℕ) (xs : List ℚ) : Option ℚ :=
  if w ≤ xs.length then some ((xs.drop (xs.length - w)).sum / (w : ℚ)) else none

/-- Last entry of `rs = gain / loss` (line 102), IEEE elementwise division:
NaN when either rolling mean is undefined or `0/0`, signed infinity on
division of a non-zero numerator by zero. -/
def rsLast (closes : List ℚ) : FVal :=
  match rollingMeanLast 14 (gains closes), rollingMeanLast 14 (losses closes) with
  | some g, some l =>
      if l = 0 then (if g = 0 then FVal.nan else if 0 < g then FVal.inf else FVal.ninf)
      else FVal.fin (g / l)
  | _, _ => FVal.nan

/-- Last entry of `rsi = 100 - (100 / (1 + rs))` (line 103), IEEE semantics:
`rs = +inf` gives `100 − 0 = 100`; `rs = −1` would give `100 − inf = −inf`
(unreachable: both rolling means are nonnegative). -/
def rsiLast (closes : List ℚ) : FVal :=
  match rsLast closes with
  | .nan => .nan
  | .inf => .fin 100
  | .ninf => .fin 100
  | .fin q => if 1 + q = 0 then FVal.ninf else FVal.fin (100 - 100 / (1 + q))

/-- Finite entries of a float column (the values pandas `std(skipna=True)`
averages over). -/
def finVals (xs : List FVal) : List ℚ :=
  xs.filterMap (fun x => match x with | .fin q => some q | _ => none)

/-- Whether a float column contains an infinity. -/
def hasInfinite (xs : List FVal) : Bool :=
  xs.any (fun x => x matches .inf || x matches .ninf)

/-- Sample variance with denominator `n − 1` (pandas default `ddof=1`). -/
def sampleVar (vs : List ℚ) : ℚ :=
  ((vs.map (fun v => (v - vs.sum / (vs.length : ℚ)) ^ 2)).sum) / ((vs.length : ℚ) - 1)

/-- Embedding of the `Volatility` field (line 92),
`Returns.std() * sqrt(252) * 100`.  The sample standard deviation and the
positive scale factors are strictly monotone images of the sample variance of
the non-NaN returns, and `ℚ` has no square root, so the embedding stores that
sample variance: the stored value is finite/NaN exactly when the float field
is.  As in pandas, the result is NaN when an infinity enters the column or
fewer than two non-NaN returns exist (never the case on pipeline inputs,
which have at least 5 bars of positive closes). -/
def returnsVariance (closes : List ℚ) : FVal :=
  let rets := pctChange closes
  if hasInfinite rets then FVal.nan
  else
    let vs := finVals rets
    if 2 ≤ vs.length then FVal.fin (sampleVar vs) else FVal.nan

/-- MetricRecord: the fixed-schema record built on lines 106-118.  Fields that
a division can make non-finite are `FVal`; the plain-ℚ fields (`avg_volume`,
`recent_volume`, `sma_20`, `sma_50`) are means over windows that are nonempty
for every series the pipeline passes in (≥ 5 bars). -/
structure MetricRecord where
  current_price : ℚ
  change_pct : FVal
  avg_volume : ℚ
  recent_volume : ℚ
  volume_trend : FVal
  volatility : FVal
  sma_20 : ℚ
  sma_50 : ℚ
  rsi : FVal
  price_vs_sma20 : FVal
  price_vs_sma50 : FVal
deriving DecidableEq, Repr

/-- Mean of a rational column (`Series.mean()`).  On the empty list this
yields `0` where pandas yields NaN; every use in `calculate_metrics` is on a
series with at least 5 bars (line 73 guard), where the two agree. -/
def qmean (l : List ℚ) : ℚ := l.sum / (l.length : ℚ)

/-- Line 104, `rsi.iloc[-1] if not pd.isna(rsi.iloc[-1]) else 50`:
the neutral fallback replaces only NaN. -/
def rsiWithFallback (closes : List ℚ) : FVal :=
  match rsiLast closes with
  | .nan => FVal.fin 50
  | v => v

/-- Body of the `calculate_metrics` loop (lines 79-118) for one series:
the MetricRecord of one frame.  List index `len − k` embeds `iloc[-k]`;
the `getD` default 0 is unreachable for the ≥ 5-bar frames the pipeline
passes (line 73 guard). -/
def metricOf (f : Frame) : MetricRecord :=
  let n := f.closes.length
  let current_price := f.closes.getD (n - 1) 0
  let change_pct :=
    if 30 ≤ n then pct (f.closes.getD (n - 30) 0) (f.closes.getD (n - 1) 0)
    else pct (f.closes.getD 0 0) (f.closes.getD (n - 1) 0)
  let avg_volume := qmean f.volumes
  let recent_volume := qmean (f.volumes.drop (f.volumes.length - 5))
  let volume_trend := (qdiv (recent_volume - avg_volume) avg_volume).mulC 100
  let sma_20 := if 20 ≤ n then (f.closes.drop (n - 20)).sum / 20 else current_price
  let sma_50 := if 50 ≤ n then (f.closes.drop (n - 50)).sum / 50 else current_price
  { current_price := current_price
    change_pct := change_pct
    avg_volume := avg_volume
    recent_volume := recent_volume
    volume_trend := volume_trend
    volatility := returnsVariance f.closes
    sma_20 := sma_20
    sma_50 := sma_50
    rsi := rsiWithFallback f.closes
    price_vs_sma20 := pct sma_20 current_price
    price_vs_sma50 := pct sma_50 current_price }

/-- Line 77, `data['Returns'] = data['Close'].pct_change()`: the in-place
addition of the derived column to a fetched frame. -/
def addReturns (f : Frame) : Frame :=
  { f with returnsCol := some (pctChange f.closes) }

/-- Result of one `yf.Ticker(symbol).history(period)` call (lines 54-55):
either an exception during fetch or a (possibly empty) frame. -/
inductive FetchResult where
  | err : FetchResult
  | ok : Frame → FetchResult
deriving DecidableEq, Repr

/-- Embedding of `fetch_stock_data` (lines 47-64): keeps, in input order, the symbols whose
fetch neither raised nor returned an empty frame. -/
def fetch_stock_data (raw : List (String × FetchResult)) : List (String × Frame) :=
  raw.filterMap (fun p => match p.2 with
    | .err => none
    | .ok f => if f.closes.length = 0 then none else some (p.1, f))

/-- Embedding of `calculate_metrics` (lines 66-120).  First component: the metrics mapping,
in input order, skipping frames with fewer than 5 bars (line 73).  Second
component: the state of the input frames after the run — the loop mutates
each processed frame by adding its `Returns` column (line 77) before reading
it for the volatility metric. -/
def calculate_metrics (stock_data : List (String × Frame)) :
    List (String × MetricRecord) × List (String × Frame) :=
  (stock_data.filterMap (fun p =>
      if p.2.closes.length < 5 then none
      else some (p.1, metricOf (addReturns p.2))),
   stock_data.map (fun p =>
      if p.2.closes.length < 5 then p else (p.1, addReturns p.2)))

example : pct 2 3 = FVal.fin 50 := by norm_num [pct, qdiv, FVal.mulC]
example : qdiv 1 0 = FVal.inf := by norm_num [qdiv]
example : (metricOf ⟨[0,1,2,3,4], [1,1,1,1,1], [0,0,0,0,0], none⟩).volume_trend
    = FVal.nan := by norm_num [metricOf, pct, qdiv, FVal.mulC, qmean]

/-- Volume sub-score (line 138): `min(Volume_Trend / 10, 10)`. -/
def volumeScore (m : MetricRecord) : FVal := pymin (m.volume_trend.divC 10) 10

/-- Momentum sub-score (line 142): `min(Change_Pct / 5, 10)`. -/
def changeScore (m : MetricRecord) : FVal := pymin (m.change_pct.divC 5) 10

/-- RSI sub-score (lines 147-148): `max(0, min(10 - abs(RSI - 50) / 5, 10))`. -/
def rsiScore (m : MetricRecord) : FVal :=
  pymax 0 (pymin (FVal.sub (FVal.fin 10) (((m.rsi.sub (FVal.fin 50)).abs).divC 5)) 10)

/-- Trend sub-score (lines 152-153):
`min(((Price_vs_SMA20 + Price_vs_SMA50) / 2) / 2, 10)`. -/
def smaScore (m : MetricRecord) : FVal :=
  pymin (((m.price_vs_sma20.add m.price_vs_sma50).divC 2).divC 2) 10

/-- Per-symbol score (lines 135-156): `0`, then `+= sub * weight` for the four
sub-scores with weights 0.3, 0.25, 0.25, 0.2. -/
def scoreOf (m : MetricRecord) : FVal :=
  ((((FVal.fin 0).add ((volumeScore m).mulC (3/10))).add
      ((changeScore m).mulC (1/4))).add
      ((rsiScore m).mulC (1/4))).add
      ((smaScore m).mulC (1/5))

/-- The `scores` association built on lines 132-156, in the insertion order of
the metrics mapping. -/
def pipelineScores (metrics : List (String × MetricRecord)) : List (String × FVal) :=
  metrics.map (fun p => (p.1, scoreOf p.2))

/-- Insertion step of the stable descending sort: `x` (an earlier element) is
placed before the first entry whose score does not strictly exceed `x`'s, so
an earlier element precedes every later element of equal score. -/
def insertDesc (x : String × FVal) : List (String × FVal) → List (String × FVal)
  | [] => [x]
  | y :: ys => if FVal.ble y.2 x.2 then x :: y :: ys else y :: insertDesc x ys

/-- Stable sort by score, descending, embedding
`sorted(scores.items(), key=lambda x: x[1], reverse=True)` (line 159): Python's
sort is stable and `reverse=True` keeps equal elements in original order. -/
def sortDesc : List (String × FVal) → List (String × FVal)
  | [] => []
  | x :: xs => insertDesc x (sortDesc xs)

/-- Embedding of `predict_stocks` (lines 122-160): empty mapping short-circuits to `[]`;
otherwise score every symbol, sort descending by score (stable), and keep the
first `top_n` entries. -/
def predict_stocks (metrics : List (String × MetricRecord)) (top_n : ℕ) :
    List (String × FVal) :=
  if metrics.isEmpty then [] else (sortDesc (pipelineScores metrics)).take top_n

/-- Metrics computed by the batch pipeline (`fetch_stock_data` at line 242
followed by `calculate_metrics` at line 251). -/
def pipelineMetrics (raw : List (String × FetchResult)) : List (String × MetricRecord) :=
  (calculate_metrics (fetch_stock_data raw)).1

/-!
Forecast engine (`stock_analysis.py`).  Dates are modelled as day numbers
with day 0 a Monday, so `d % 7 ∈ {5, 6}` means Saturday/Sunday.
-/

/-- First day of `pd.date_range(start, ..., freq='B')`: `start` itself when it
is a business day, otherwise the following Monday. -/
def rollForward (d : ℕ) : ℕ :=
  if d % 7 = 5 then d + 2 else if d % 7 = 6 then d + 1 else d

/-- Embedding of `pd.date_range(start, periods=n, freq='B')` (line 32 of
`stock_analysis.py`): `n` successive business days beginning with the first
business day at or after `start`. -/
def bdateRange (start : ℕ) : ℕ → List ℕ
  | 0 => []
  | n + 1 => rollForward start :: bdateRange (rollForward start + 1) n

/-- The 7 forecast dates of line 32:
`pd.date_range(data.index[-1] + pd.Timedelta(days=1), periods=7, freq='B')`. -/
def forecastDates (lastDate : ℕ) : List ℕ := bdateRange (lastDate + 1) 7

/-- Error raised by the forecast engine when the model cannot be fit
(spec taxonomy; the reference delegates fitting to a third-party routine). -/
structure InsufficientDataError where
deriving DecidableEq, Repr

/-- Modelled from the spec: the Holt additive-trend exponential-smoothing fit
of lines 25-27 of `stock_analysis.py` is performed by a third-party
statistical routine (`statsmodels.ExponentialSmoothing(...).fit().forecast(7)`)
whose code is not part of this repository.  Per the spec the model maintains a
level and a trend smoothed by two parameters estimated from the data (any
standard estimation procedure is admissible) and fails with
`InsufficientDataError` when the series has too few points to fit
(implementation-defined minimum, e.g. fewer than 2).  The embedding fixes one
admissible instantiation — smoothing parameters 1/2, level/trend initialized
from the first two points — and extrapolates `level + i·trend` for
`i = 1, ..., 7`. -/
def holtFitForecast (closes : List ℚ) : Except InsufficientDataError (List ℚ) :=
  match closes with
  | c0 :: c1 :: rest =>
      let lb := rest.foldl (fun (lb : ℚ × ℚ) c =>
        let lev := (c + (lb.1 + lb.2)) / 2
        ((c + (lb.1 + lb.2)) / 2, ((lev - lb.1) + lb.2) / 2)) (c1, c1 - c0)
      Except.ok ((List.range 7).map (fun i : ℕ => lb.1 + ((i : ℚ) + 1) * lb.2))
  | _ => Except.error ⟨⟩

/-- Forecast engine: the (future-date, predicted-close) pairs plotted on
line 32 of `stock_analysis.py`, or the fit failure. -/
def forecastEngine (lastDate : ℕ) (closes : List ℚ) :
    Except InsufficientDataError (List (ℕ × ℚ)) :=
  (holtFitForecast closes).map (fun vs => (forecastDates lastDate).zip vs)

/-- Combined observable output of one run: the metric/ranking pipeline of
`indonesia_stock_analysis.py` next to the forecast of `stock_analysis.py`
(the two are separate programs; the spec's top-N default is 5). -/
structure RunOutput where
  metrics : List (String × MetricRecord)
  ranking : List (String × FVal)
  forecastResult : Except InsufficientDataError (List (ℕ × ℚ))
deriving Repr

/-- One combined run over a batch of fetches plus one forecast input. -/
def runAll (raw : List (String × FetchResult)) (lastDate : ℕ) (closes : List ℚ) :
    RunOutput :=
  { metrics := pipelineMetrics raw
    ranking := predict_stocks (pipelineMetrics raw) 5
    forecastResult := forecastEngine lastDate closes }

example : forecastDates 4 = [7, 8, 9, 10, 11, 14, 15] := by
  norm_num [forecastDates, bdateRange, rollForward]

/-! Helper lemmas about the metric engine. -/

lemma metricOf_rsi (f : Frame) : (metricOf f).rsi = rsiWithFallback f.closes := rfl

lemma metricOf_change_pct (f : Frame) :
    (metricOf f).change_pct =
      if 30 ≤ f.closes.length then
        pct (f.closes.getD (f.closes.length - 30) 0) (f.closes.getD (f.closes.length - 1) 0)
      else
        pct (f.closes.getD 0 0) (f.closes.getD (f.closes.length - 1) 0) := rfl

lemma pct_of_ne_zero (old new : ℚ) (h : old ≠ 0) :
    pct old new = FVal.fin ((new - old) / old * 100) := by
  simp [pct, qdiv, h, FVal.mulC]

lemma getD_pos_of_forall_pos (l : List ℚ) (i : ℕ) (hi : i < l.length)
    (hpos : ∀ c ∈ l, 0 < c) : 0 < l.getD i 0 := by
  rw [l.getD_eq_getElem 0 hi]
  exact hpos _ (l.getElem_mem hi)

lemma gains_length (closes : List ℚ) : (gains closes).length = closes.length := by
  cases closes with
  | nil => rfl
  | cons c cs => simp [gains, deltas]

lemma losses_length (closes : List ℚ) : (losses closes).length = closes.length := by
  cases closes with
  | nil => rfl
  | cons c cs => simp [losses, deltas]

lemma gains_nonneg (closes : List ℚ) : ∀ x ∈ gains closes, 0 ≤ x := by
  cases closes with
  | nil => simp [gains]
  | cons c cs =>
      intro x hx
      simp only [gains, List.mem_cons, List.mem_map] at hx
      rcases hx with h | ⟨d, _, rfl⟩
      · simp [h]
      · split <;> [linarith; rfl]

lemma losses_nonneg (closes : List ℚ) : ∀ x ∈ losses closes, 0 ≤ x := by
  cases closes with
  | nil => simp [losses]
  | cons c cs =>
      intro x hx
      simp only [losses, List.mem_cons, List.mem_map] at hx
      rcases hx with h | ⟨d, _, rfl⟩
      · simp [h]
      · split <;> [linarith; rfl]

lemma rollingMeanLast_nonneg (w : ℕ) (xs : List ℚ) (hx : ∀ x ∈ xs, 0 ≤ x)
    (m : ℚ) (hm : rollingMeanLast w xs = some m) : 0 ≤ m := by
  unfold rollingMeanLast at hm
  split at hm
  · have hsum : 0 ≤ (xs.drop (xs.length - w)).sum :=
      List.sum_nonneg (fun x hxd => hx x (List.mem_of_mem_drop hxd))
    have : ((xs.drop (xs.length - w)).sum / (w : ℚ)) = m := by
      exact Option.some_injective _ hm
    subst this
    positivity
  · exact absurd hm (by simp)

lemma rollingMeanLast_none_of_lt (w : ℕ) (xs : List ℚ) (h : xs.length < w) :
    rollingMeanLast w xs = none := by
  simp [rollingMeanLast, Nat.not_le.mpr h]

lemma rsLast_nan_of_short (closes : List ℚ) (h : closes.length < 14) :
    rsLast closes = FVal.nan := by
  unfold rsLast
  rw [rollingMeanLast_none_of_lt 14 (gains closes) (by rw [gains_length]; exact h)]

/-- Claim C1: with at least 30 bars, `change_pct` is the percentage change
from the close 30 bars back to the last close; with 5 ≤ bars < 30, the first
close is the baseline.  Positivity of closes (TimeSeries invariant) makes the
division exact. -/
theorem C1_change_pct_formula (f : Frame) (h5 : 5 ≤ f.closes.length)
    (hpos : ∀ c ∈ f.closes, 0 < c) :
    (30 ≤ f.closes.length →
      (metricOf f).change_pct =
        FVal.fin ((f.closes.getD (f.closes.length - 1) 0 -
            f.closes.getD (f.closes.length - 30) 0) /
          f.closes.getD (f.closes.length - 30) 0 * 100)) ∧
    (f.closes.length < 30 →
      (metricOf f).change_pct =
        FVal.fin ((f.closes.getD (f.closes.length - 1) 0 - f.closes.getD 0 0) /
          f.closes.getD 0 0 * 100)) := by
  have hn : 0 < f.closes.length := by omega
  constructor
  · intro h30
    have hbase : 0 < f.closes.getD (f.closes.length - 30) 0 :=
      getD_pos_of_forall_pos _ _ (by omega) hpos
    rw [metricOf_change_pct, if_pos h30, pct_of_ne_zero _ _ (ne_of_gt hbase)]
  · intro h30
    have hbase : 0 < f.closes.getD 0 0 :=
      getD_pos_of_forall_pos _ _ (by omega) hpos
    rw [metricOf_change_pct, if_neg (by omega), pct_of_ne_zero _ _ (ne_of_gt hbase)]

/-- Witness for C1 at a concrete 30-bar series of constant close 1. -/
theorem C1_change_pct_formula_witness :
    (5 ≤ (Frame.mk (List.range 30) (List.replicate 30 1) (List.replicate 30 1) none).closes.length ∧
      ∀ c ∈ (Frame.mk (List.range 30) (List.replicate 30 1) (List.replicate 30 1) none).closes,
        0 < c) ∧
    ((30 ≤ (Frame.mk (List.range 30) (List.replicate 30 1) (List.replicate 30 1) none).closes.length →
      (metricOf (Frame.mk (List.range 30) (List.replicate 30 1) (List.replicate 30 1) none)).change_pct =
        FVal.fin (((Frame.mk (List.range 30) (List.replicate 30 1) (List.replicate 30 1) none).closes.getD
              ((Frame.mk (List.range 30) (List.replicate 30 1) (List.replicate 30 1) none).closes.length - 1) 0 -
            (Frame.mk (List.range 30) (List.replicate 30 1) (List.replicate 30 1) none).closes.getD
              ((Frame.mk (List.range 30) (List.replicate 30 1) (List.replicate 30 1) none).closes.length - 30) 0) /
          (Frame.mk (List.range 30) (List.replicate 30 1) (List.replicate 30 1) none).closes.getD
            ((Frame.mk (List.range 30) (List.replicate 30 1) (List.replicate 30 1) none).closes.length - 30) 0 * 100)) ∧
    ((Frame.mk (List.range 30) (List.replicate 30 1) (List.replicate 30 1) none).closes.length < 30 →
      (metricOf (Frame.mk (List.range 30) (List.replicate 30 1) (List.replicate 30 1) none)).change_pct =
        FVal.fin (((Frame.mk (List.range 30) (List.replicate 30 1) (List.replicate 30 1) none).closes.getD
              ((Frame.mk (List.range 30) (List.replicate 30 1) (List.replicate 30 1) none).closes.length - 1) 0 -
            (Frame.mk (List.range 30) (List.replicate 30 1) (List.replicate 30 1) none).closes.getD 0 0) /
          (Frame.mk (List.range 30) (List.replicate 30 1) (List.replicate 30 1) none).closes.getD 0 0 * 100))) :=
  ⟨⟨by simp, fun c hc => by rw [List.eq_of_mem_replicate hc]; norm_num⟩,
    C1_change_pct_formula _ (by simp)
      (fun c hc => by rw [List.eq_of_mem_replicate hc]; norm_num)⟩

/-- Case analysis on the last `rs` value: it is NaN, `+inf`, or a nonnegative
finite ratio (both rolling means average nonnegative columns). -/
lemma rsLast_cases (closes : List ℚ) :
    rsLast closes = FVal.nan ∨ rsLast closes = FVal.inf ∨
      ∃ q, rsLast closes = FVal.fin q ∧ 0 ≤ q := by
  unfold rsLast
  rcases hg : rollingMeanLast 14 (gains closes) with _ | g
  · left; rfl
  · rcases hl : rollingMeanLast 14 (losses closes) with _ | l
    · left; rfl
    · have hg0 : 0 ≤ g := rollingMeanLast_nonneg _ _ (gains_nonneg _) _ hg
      have hl0 : 0 ≤ l := rollingMeanLast_nonneg _ _ (losses_nonneg _) _ hl
      by_cases h0 : l = 0
      · by_cases hgg : g = 0
        · left; simp [h0, hgg]
        · right; left; simp [h0, hgg, lt_of_le_of_ne hg0 (Ne.symm hgg)]
      · right; right
        exact ⟨g / l, by simp [h0], div_nonneg hg0 hl0⟩

/-- The RSI value stored in the record is always a finite number in
`[0, 100]`. -/
lemma rsiWithFallback_range (closes : List ℚ) :
    ∃ q, rsiWithFallback closes = FVal.fin q ∧ 0 ≤ q ∧ q ≤ 100 := by
  rcases rsLast_cases closes with h | h | ⟨q, h, hq⟩
  · exact ⟨50, by simp [rsiWithFallback, rsiLast, h], by norm_num, by norm_num⟩
  · exact ⟨100, by simp [rsiWithFallback, rsiLast, h], by norm_num, by norm_num⟩
  · have h1 : (0 : ℚ) < 1 + q := by linarith
    refine ⟨100 - 100 / (1 + q), ?_, ?_, ?_⟩
    · simp [rsiWithFallback, rsiLast, h, ne_of_gt h1]
    · have hle : 100 / (1 + q) ≤ 100 := by
        rw [div_le_iff₀ h1]; nlinarith
      linarith
    · have hpos : 0 < 100 / (1 + q) := by positivity
      linarith

/-- Claim C3: for every series the metric engine accepts (≥ 5 bars), the
stored `rsi` is a finite value in `[0, 100]`, and whenever the gain/loss
ratio is undefined (its float value is NaN — too few bars for the 14-period
rolling means, or a 0/0 ratio) the stored value is exactly the neutral
fallback 50. -/
theorem C3_rsi_range (f : Frame) (_h5 : 5 ≤ f.closes.length) :
    (∃ q, (metricOf f).rsi = FVal.fin q ∧ 0 ≤ q ∧ q ≤ 100) ∧
    (rsLast f.closes = FVal.nan → (metricOf f).rsi = FVal.fin 50) := by
  constructor
  · rw [metricOf_rsi]; exact rsiWithFallback_range f.closes
  · intro h; rw [metricOf_rsi]; simp [rsiWithFallback, rsiLast, h]

/-- Witness for C3 at a concrete 5-bar constant series. -/
theorem C3_rsi_range_witness :
    (5 ≤ (Frame.mk [0, 1, 2, 3, 4] [1, 1, 1, 1, 1] [1, 1, 1, 1, 1] none).closes.length) ∧
    ((∃ q, (metricOf (Frame.mk [0, 1, 2, 3, 4] [1, 1, 1, 1, 1] [1, 1, 1, 1, 1] none)).rsi =
        FVal.fin q ∧ 0 ≤ q ∧ q ≤ 100) ∧
      (rsLast (Frame.mk [0, 1, 2, 3, 4] [1, 1, 1, 1, 1] [1, 1, 1, 1, 1] none).closes = FVal.nan →
        (metricOf (Frame.mk [0, 1, 2, 3, 4] [1, 1, 1, 1, 1] [1, 1, 1, 1, 1] none)).rsi =
          FVal.fin 50)) :=
  ⟨by decide, C3_rsi_range _ (by decide)⟩

/-- The concrete series refuting claim C10 as stated: 14 strictly rising bars.
Its 14-period rolling means are defined (the leading NaN of `diff()` was
turned into a 0 by `where`), losses average to 0 while gains do not, so
`rs = +inf` and `rsi = 100`, not the fallback 50. -/
def frameC10 : Frame :=
  Frame.mk [0, 1, 2, 3, 4, 5, 6, 7, 8, 9, 10, 11, 12, 13]
    [1, 2, 3, 4, 5, 6, 7, 8, 9, 10, 11, 12, 13, 14]
    [1, 1, 1, 1, 1, 1, 1, 1, 1, 1, 1, 1, 1, 1] none

/-- Counterexample to claim C10 as stated: a TimeSeries with 14 bars — at
least 5 and fewer than 15 — whose stored `rsi` is 100, not 50. -/
theorem C10_counterexample :
    TimeSeriesInv frameC10 ∧ 5 ≤ frameC10.closes.length ∧ frameC10.closes.length < 15 ∧
      (metricOf frameC10).rsi = FVal.fin 100 ∧ (metricOf frameC10).rsi ≠ FVal.fin 50 := by
  refine ⟨⟨by norm_num [frameC10, List.chain'_cons], ?_, ?_, by decide, by decide⟩,
    by decide, by decide, ?_, ?_⟩
  · intro v hv
    fin_cases hv <;> norm_num
  · intro c hc
    fin_cases hc <;> norm_num
  · rw [metricOf_rsi]
    norm_num [frameC10, rsiWithFallback, rsiLast, rsLast, rollingMeanLast, gains, losses,
      deltas, List.zip_cons_cons]
  · rw [metricOf_rsi]
    norm_num [frameC10, rsiWithFallback, rsiLast, rsLast, rollingMeanLast, gains, losses,
      deltas, List.zip_cons_cons]

/-- Claim C10, amended: the correct boundary is 14 bars, because the leading
NaN of `diff()` is replaced by 0 before the rolling mean, so the 14-period
rolling means are already defined at the last position of a 14-bar series.
For every series with at least 5 and fewer than 14 bars the stored `rsi` is
exactly the fallback 50. -/
theorem C10_rsi_fallback_under_14 (f : Frame) (_h5 : 5 ≤ f.closes.length)
    (h14 : f.closes.length < 14) : (metricOf f).rsi = FVal.fin 50 := by
  rw [metricOf_rsi]
  simp [rsiWithFallback, rsiLast, rsLast_nan_of_short f.closes h14]

/-- Witness for the amended C10 at a concrete 5-bar series. -/
theorem C10_rsi_fallback_under_14_witness :
    (5 ≤ (Frame.mk [0, 1, 2, 3, 4] [1, 2, 1, 2, 1] [1, 1, 1, 1, 1] none).closes.length ∧
      (Frame.mk [0, 1, 2, 3, 4] [1, 2, 1, 2, 1] [1, 1, 1, 1, 1] none).closes.length < 14) ∧
    (metricOf (Frame.mk [0, 1, 2, 3, 4] [1, 2, 1, 2, 1] [1, 1, 1, 1, 1] none)).rsi =
      FVal.fin 50 :=
  ⟨⟨by decide, by decide⟩, C10_rsi_fallback_under_14 _ (by decide) (by decide)⟩

/-- Python `min` against a finite bound is the rational `min`. -/
lemma pymin_fin (a c : ℚ) : pymin (FVal.fin a) c = FVal.fin (min a c) := by
  by_cases h : c < a
  · simp [pymin, FVal.blt, h, min_eq_right h.le]
  · simp [pymin, FVal.blt, h, min_eq_left (not_lt.mp h)]

/-- Python `max` against a finite bound is the rational `max`. -/
lemma pymax_fin (c a : ℚ) : pymax c (FVal.fin a) = FVal.fin (max c a) := by
  by_cases h : c < a
  · simp [pymax, FVal.blt, h, max_eq_right h.le]
  · simp [pymax, FVal.blt, h, max_eq_left (not_lt.mp h)]

/-- Record builder used to exhibit extreme synthetic inputs to the scoring
engine (every scored field finite). -/
def mkRec (vt cp r p20 p50 : ℚ) : MetricRecord :=
  ⟨0, FVal.fin cp, 0, 0, FVal.fin vt, FVal.fin 0, 0, 0, FVal.fin r,
    FVal.fin p20, FVal.fin p50⟩

lemma volumeScore_fin (m : MetricRecord) (vt : ℚ) (h : m.volume_trend = FVal.fin vt) :
    volumeScore m = FVal.fin (min (vt / 10) 10) := by
  rw [volumeScore, h]; simp [FVal.divC, pymin_fin]

lemma changeScore_fin (m : MetricRecord) (cp : ℚ) (h : m.change_pct = FVal.fin cp) :
    changeScore m = FVal.fin (min (cp / 5) 10) := by
  rw [changeScore, h]; simp [FVal.divC, pymin_fin]

lemma rsiScore_fin (m : MetricRecord) (r : ℚ) (h : m.rsi = FVal.fin r) :
    rsiScore m = FVal.fin (max 0 (min (10 - |r - 50| / 5) 10)) := by
  rw [rsiScore, h]
  simp [FVal.sub, FVal.neg, FVal.add, FVal.abs, FVal.divC, pymin_fin, pymax_fin,
    sub_eq_add_neg]

lemma smaScore_fin (m : MetricRecord) (p20 p50 : ℚ)
    (h20 : m.price_vs_sma20 = FVal.fin p20) (h50 : m.price_vs_sma50 = FVal.fin p50) :
    smaScore m = FVal.fin (min ((p20 + p50) / 2 / 2) 10) := by
  rw [smaScore, h20, h50]; simp [FVal.add, FVal.divC, pymin_fin]

/-- Claim C2: on every metric record whose scored fields are finite (the
MetricRecord invariant), each sub-score is a finite value at most 10, the RSI
sub-score additionally at least 0; `volume_trend = 1000` drives the volume
sub-score to exactly 10; the final score is the unclamped weighted sum
`0.30·volume + 0.25·momentum + 0.25·rsi + 0.20·trend`; and the Volume,
Momentum and Trend sub-scores are unbounded below over the record space. -/
theorem C2_scoring_bounds (m : MetricRecord) (vt cp r p20 p50 : ℚ)
    (hvt : m.volume_trend = FVal.fin vt) (hcp : m.change_pct = FVal.fin cp)
    (hr : m.rsi = FVal.fin r) (h20 : m.price_vs_sma20 = FVal.fin p20)
    (h50 : m.price_vs_sma50 = FVal.fin p50) :
    (∃ v c rs sm : ℚ,
      volumeScore m = FVal.fin v ∧ v ≤ 10 ∧
      changeScore m = FVal.fin c ∧ c ≤ 10 ∧
      rsiScore m = FVal.fin rs ∧ 0 ≤ rs ∧ rs ≤ 10 ∧
      smaScore m = FVal.fin sm ∧ sm ≤ 10 ∧
      scoreOf m = FVal.fin (3/10 * v + 1/4 * c + 1/4 * rs + 1/5 * sm) ∧
      (vt = 1000 → v = 10)) ∧
    (∀ B : ℚ, ∃ m' q, q < B ∧ volumeScore m' = FVal.fin q ∧
      changeScore m' = FVal.fin q ∧ smaScore m' = FVal.fin q) := by
  constructor
  · have hv := volumeScore_fin m vt hvt
    have hc := changeScore_fin m cp hcp
    have hrs := rsiScore_fin m r hr
    have hsm := smaScore_fin m p20 p50 h20 h50
    refine ⟨_, _, _, _, hv, min_le_right _ _, hc, min_le_right _ _, hrs,
      le_max_left _ _, ?_, hsm, min_le_right _ _, ?_, ?_⟩
    · exact max_le (by norm_num) (min_le_right _ _)
    · rw [scoreOf, hv, hc, hrs, hsm]
      simp only [FVal.add, FVal.mulC, FVal.fin.injEq]
      ring
    · intro h1000
      rw [h1000]
      norm_num
  · intro B
    refine ⟨mkRec (10 * (min B 0 - 1)) (5 * (min B 0 - 1)) 50
        (2 * (min B 0 - 1)) (2 * (min B 0 - 1)), min B 0 - 1, ?_, ?_, ?_, ?_⟩
    · have := min_le_left B 0
      linarith
    · rw [volumeScore_fin _ _ rfl]
      have h10 : (10 : ℚ) * (min B 0 - 1) / 10 = min B 0 - 1 := by ring
      rw [h10, min_eq_left (by have := min_le_right B 0; linarith)]
    · rw [changeScore_fin _ _ rfl]
      have h5 : (5 : ℚ) * (min B 0 - 1) / 5 = min B 0 - 1 := by ring
      rw [h5, min_eq_left (by have := min_le_right B 0; linarith)]
    · rw [smaScore_fin _ _ _ rfl rfl]
      have h2 : ((2 : ℚ) * (min B 0 - 1) + 2 * (min B 0 - 1)) / 2 / 2 = min B 0 - 1 := by
        ring
      rw [h2, min_eq_left (by have := min_le_right B 0; linarith)]

/-- Witness for C2 at a concrete all-finite record with `volume_trend = 1000`. -/
theorem C2_scoring_bounds_witness :
    ((mkRec 1000 5 50 4 4).volume_trend = FVal.fin 1000 ∧
      (mkRec 1000 5 50 4 4).change_pct = FVal.fin 5 ∧
      (mkRec 1000 5 50 4 4).rsi = FVal.fin 50 ∧
      (mkRec 1000 5 50 4 4).price_vs_sma20 = FVal.fin 4 ∧
      (mkRec 1000 5 50 4 4).price_vs_sma50 = FVal.fin 4) ∧
    ((∃ v c rs sm : ℚ,
      volumeScore (mkRec 1000 5 50 4 4) = FVal.fin v ∧ v ≤ 10 ∧
      changeScore (mkRec 1000 5 50 4 4) = FVal.fin c ∧ c ≤ 10 ∧
      rsiScore (mkRec 1000 5 50 4 4) = FVal.fin rs ∧ 0 ≤ rs ∧ rs ≤ 10 ∧
      smaScore (mkRec 1000 5 50 4 4) = FVal.fin sm ∧ sm ≤ 10 ∧
      scoreOf (mkRec 1000 5 50 4 4) = FVal.fin (3/10 * v + 1/4 * c + 1/4 * rs + 1/5 * sm) ∧
      ((1000 : ℚ) = 1000 → v = 10)) ∧
    (∀ B : ℚ, ∃ m' q, q < B ∧ volumeScore m' = FVal.fin q ∧
      changeScore m' = FVal.fin q ∧ smaScore m' = FVal.fin q)) :=
  ⟨⟨rfl, rfl, rfl, rfl, rfl⟩,
    C2_scoring_bounds (mkRec 1000 5 50 4 4) 1000 5 50 4 4 rfl rfl rfl rfl rfl⟩

/-! Properties of the stable descending sort used by `predict_stocks`. -/

lemma FVal.ble_refl (a : FVal) : a.ble a = true := by
  cases a <;> simp [FVal.ble]

lemma FVal.ble_total (a b : FVal) : a.ble b = true ∨ b.ble a = true := by
  cases a <;> cases b <;> simp [FVal.ble]
  exact le_total _ _

lemma FVal.ble_trans {a b c : FVal} (h1 : a.ble b = true) (h2 : b.ble c = true) :
    a.ble c = true := by
  cases a <;> cases b <;> cases c <;> simp_all [FVal.ble]
  exact le_trans h1 h2

lemma insertDesc_perm (x : String × FVal) (l : List (String × FVal)) :
    (insertDesc x l).Perm (x :: l) := by
  induction l with
  | nil => rfl
  | cons y ys ih =>
      unfold insertDesc
      split
      · rfl
      · exact (ih.cons y).trans (List.Perm.swap x y ys)

lemma sortDesc_perm (l : List (String × FVal)) : (sortDesc l).Perm l := by
  induction l with
  | nil => rfl
  | cons x xs ih => exact (insertDesc_perm x (sortDesc xs)).trans (ih.cons x)

lemma insertDesc_pairwise (x : String × FVal) (l : List (String × FVal))
    (h : List.Pairwise (fun a b => FVal.ble b.2 a.2 = true) l) :
    List.Pairwise (fun a b => FVal.ble b.2 a.2 = true) (insertDesc x l) := by
  induction l with
  | nil => simp [insertDesc]
  | cons y ys ih =>
      rcases List.pairwise_cons.mp h with ⟨hy, hys⟩
      unfold insertDesc
      split
      case isTrue hc =>
        refine List.pairwise_cons.mpr ⟨?_, h⟩
        intro z hz
        rcases List.mem_cons.mp hz with rfl | hzys
        · exact hc
        · exact FVal.ble_trans (hy z hzys) hc
      case isFalse hc =>
        refine List.pairwise_cons.mpr ⟨?_, ih hys⟩
        intro z hz
        rcases List.mem_cons.mp ((insertDesc_perm x ys).mem_iff.mp hz) with rfl | hzys
        · exact (FVal.ble_total y.2 z.2).resolve_left (by simpa using hc)
        · exact hy z hzys

lemma sortDesc_pairwise (l : List (String × FVal)) :
    List.Pairwise (fun a b => FVal.ble b.2 a.2 = true) (sortDesc l) := by
  induction l with
  | nil => exact List.Pairwise.nil
  | cons x xs ih => exact insertDesc_pairwise x (sortDesc xs) ih

lemma filter_insertDesc (c : FVal) (x : String × FVal) (l : List (String × FVal)) :
    (insertDesc x l).filter (fun y => decide (y.2 = c)) =
      if x.2 = c then x :: l.filter (fun y => decide (y.2 = c))
      else l.filter (fun y => decide (y.2 = c)) := by
  induction l with
  | nil => by_cases hx : x.2 = c <;> simp [insertDesc, hx]
  | cons y ys ih =>
      unfold insertDesc
      split
      case isTrue hc =>
        by_cases hx : x.2 = c <;> simp [List.filter_cons, hx]
      case isFalse hc =>
        by_cases hx : x.2 = c
        · have hy : ¬ y.2 = c := by
            intro hyc
            exact hc (by rw [hyc, hx]; exact FVal.ble_refl c)
          simp [List.filter_cons, hx, hy, ih]
        · by_cases hy : y.2 = c <;> simp [List.filter_cons, hx, hy, ih]

lemma sortDesc_filter (c : FVal) (l : List (String × FVal)) :
    (sortDesc l).filter (fun y => decide (y.2 = c)) =
      l.filter (fun y => decide (y.2 = c)) := by
  induction l with
  | nil => rfl
  | cons x xs ih =>
      by_cases hx : x.2 = c <;>
        simp [sortDesc, filter_insertDesc, hx, ih, List.filter_cons]

/-- Claim C4: `predict_stocks` returns the first `min(N, number of symbols)`
entries of the scored symbols sorted descending by score, ties keeping the
insertion order of the metrics mapping (stated as: per score value, filtering
the sorted list gives back the original-order sublist), and every returned
entry scores at least as high as every entry cut off by the truncation. -/
theorem C4_ranking_topn (metrics : List (String × MetricRecord)) (N : ℕ) :
    predict_stocks metrics N = (sortDesc (pipelineScores metrics)).take N ∧
    (predict_stocks metrics N).length = min N metrics.length ∧
    (sortDesc (pipelineScores metrics)).Perm (pipelineScores metrics) ∧
    List.Pairwise (fun a b => FVal.ble b.2 a.2 = true) (sortDesc (pipelineScores metrics)) ∧
    (∀ c : FVal, (sortDesc (pipelineScores metrics)).filter (fun y => decide (y.2 = c)) =
      (pipelineScores metrics).filter (fun y => decide (y.2 = c))) ∧
    (∀ x ∈ predict_stocks metrics N, ∀ y ∈ (sortDesc (pipelineScores metrics)).drop N,
      FVal.ble y.2 x.2 = true) := by
  have heq : predict_stocks metrics N = (sortDesc (pipelineScores metrics)).take N := by
    unfold predict_stocks
    split
    case isTrue h =>
      rw [List.isEmpty_iff.mp h]
      simp [pipelineScores, sortDesc]
    case isFalse h => rfl
  have hlen : (sortDesc (pipelineScores metrics)).length = metrics.length := by
    rw [(sortDesc_perm _).length_eq]
    simp [pipelineScores]
  refine ⟨heq, ?_, sortDesc_perm _, sortDesc_pairwise _, fun c => sortDesc_filter c _, ?_⟩
  · rw [heq, List.length_take, hlen]
  · intro x hx y hy
    rw [heq] at hx
    have hsplit := List.take_append_drop N (sortDesc (pipelineScores metrics))
    have hp : List.Pairwise (fun a b => FVal.ble b.2 a.2 = true)
        ((sortDesc (pipelineScores metrics)).take N ++
          (sortDesc (pipelineScores metrics)).drop N) := by
      rw [hsplit]; exact sortDesc_pairwise _
    exact (List.pairwise_append.mp hp).2.2 x hx y hy

/-! Pipeline isolation of failed symbols (claim C6). -/

/-- Fetch results that remove a symbol from further processing: a raised
exception, an empty series (dropped on line 56), or fewer than 5 bars
(skipped on line 73; the empty series is also covered by this bound). -/
def isBadResult : FetchResult → Bool
  | .err => true
  | .ok f => decide (f.closes.length < 5)

/-- One symbol's fate through fetch (lines 53-62) and the metric guard
(line 73), as a single `filterMap` step. -/
def pipeStep (p : String × FetchResult) : Option (String × MetricRecord) :=
  match p.2 with
  | .err => none
  | .ok f =>
      if f.closes.length = 0 then none
      else if f.closes.length < 5 then none
      else some (p.1, metricOf (addReturns f))

lemma pipelineMetrics_eq_filterMap (raw : List (String × FetchResult)) :
    pipelineMetrics raw = raw.filterMap pipeStep := by
  unfold pipelineMetrics calculate_metrics fetch_stock_data
  simp only [List.filterMap_filterMap]
  congr 1
  funext p
  rcases p with ⟨s, r⟩
  cases r with
  | err => rfl
  | ok f =>
      by_cases h0 : f.closes.length = 0
      · simp [pipeStep, h0]
      · by_cases h5 : f.closes.length < 5 <;> simp [pipeStep, h0, h5]

lemma pipeStep_none_of_bad (p : String × FetchResult) (h : isBadResult p.2 = true) :
    pipeStep p = none := by
  rcases p with ⟨s, r⟩
  cases r with
  | err => rfl
  | ok f =>
      simp only [isBadResult, decide_eq_true_eq] at h
      simp [pipeStep, h]

lemma pipeStep_fst (p : String × FetchResult) (q : String × MetricRecord)
    (h : pipeStep p = some q) : q.1 = p.1 := by
  rcases p with ⟨s, r⟩
  cases r with
  | err => exact absurd h (by simp [pipeStep])
  | ok f =>
      simp only [pipeStep] at h
      split_ifs at h
      cases h
      rfl

lemma filterMap_pipeStep_drop_bad (s : String) (raw : List (String × FetchResult))
    (hbad : ∀ p ∈ raw, p.1 = s → isBadResult p.2 = true) :
    raw.filterMap pipeStep =
      (raw.filter (fun p => decide (p.1 ≠ s))).filterMap pipeStep := by
  induction raw with
  | nil => rfl
  | cons p rest ih =>
      have hrest := fun q hq => hbad q (List.mem_cons_of_mem p hq)
      by_cases hps : p.1 = s
      · rw [List.filterMap_cons,
          pipeStep_none_of_bad p (hbad p (List.mem_cons_self p rest) hps),
          List.filter_cons, if_neg (by simp [hps])]
        exact ih hrest
      · rw [List.filter_cons, if_pos (by simp [hps]), List.filterMap_cons,
          List.filterMap_cons, ih hrest]

/-- Claim C6: a symbol whose every fetch entry is bad (raised, empty, or
under 5 bars) appears neither in the metrics mapping nor in the ranking, and
removing its entries leaves the metrics of the other symbols unchanged.  All
functions involved are total, so the run produces a result on every input. -/
theorem C6_bad_symbol_isolated (raw : List (String × FetchResult)) (s : String) (N : ℕ)
    (hbad : ∀ p ∈ raw, p.1 = s → isBadResult p.2 = true) :
    s ∉ (pipelineMetrics raw).map Prod.fst ∧
    s ∉ (predict_stocks (pipelineMetrics raw) N).map Prod.fst ∧
    pipelineMetrics raw = pipelineMetrics (raw.filter (fun p => decide (p.1 ≠ s))) := by
  have h1 : s ∉ (pipelineMetrics raw).map Prod.fst := by
    rw [pipelineMetrics_eq_filterMap]
    intro hmem
    rcases List.mem_map.mp hmem with ⟨q, hq, hqs⟩
    rcases List.mem_filterMap.mp hq with ⟨p, hp, hstep⟩
    have hfst : q.1 = p.1 := pipeStep_fst p q hstep
    have hbadp := hbad p hp (by rw [← hfst, hqs])
    rw [pipeStep_none_of_bad p hbadp] at hstep
    exact Option.noConfusion hstep
  refine ⟨h1, ?_, ?_⟩
  · intro hmem
    apply h1
    rcases List.mem_map.mp hmem with ⟨q, hq, hqs⟩
    have hq2 : q ∈ sortDesc (pipelineScores (pipelineMetrics raw)) := by
      unfold predict_stocks at hq
      split at hq
      · exact absurd hq (List.not_mem_nil q)
      · exact List.mem_of_mem_take hq
    have hq3 : q ∈ pipelineScores (pipelineMetrics raw) :=
      (sortDesc_perm _).mem_iff.mp hq2
    rcases List.mem_map.mp hq3 with ⟨m, hm, hqm⟩
    exact List.mem_map.mpr ⟨m, hm, by rw [← hqs, ← hqm]⟩
  · rw [pipelineMetrics_eq_filterMap, pipelineMetrics_eq_filterMap]
    exact filterMap_pipeStep_drop_bad s raw hbad

/-- Witness for C6: a batch with one raising symbol, one empty series, one
3-bar series and one good 5-bar series; the raising symbol is isolated. -/
theorem C6_bad_symbol_isolated_witness :
    (∀ p ∈ [("B", FetchResult.err),
        ("E", FetchResult.ok (Frame.mk [] [] [] none)),
        ("S", FetchResult.ok (Frame.mk [0, 1, 2] [1, 2, 3] [1, 1, 1] none)),
        ("G", FetchResult.ok (Frame.mk [0, 1, 2, 3, 4] [1, 2, 3, 4, 5] [1, 1, 1, 1, 1] none))],
      p.1 = "B" → isBadResult p.2 = true) ∧
    ("B" ∉ (pipelineMetrics [("B", FetchResult.err),
        ("E", FetchResult.ok (Frame.mk [] [] [] none)),
        ("S", FetchResult.ok (Frame.mk [0, 1, 2] [1, 2, 3] [1, 1, 1] none)),
        ("G", FetchResult.ok (Frame.mk [0, 1, 2, 3, 4] [1, 2, 3, 4, 5] [1, 1, 1, 1, 1] none))]).map Prod.fst ∧
      "B" ∉ (predict_stocks (pipelineMetrics [("B", FetchResult.err),
        ("E", FetchResult.ok (Frame.mk [] [] [] none)),
        ("S", FetchResult.ok (Frame.mk [0, 1, 2] [1, 2, 3] [1, 1, 1] none)),
        ("G", FetchResult.ok (Frame.mk [0, 1, 2, 3, 4] [1, 2, 3, 4, 5] [1, 1, 1, 1, 1] none))]) 5).map Prod.fst ∧
      pipelineMetrics [("B", FetchResult.err),
        ("E", FetchResult.ok (Frame.mk [] [] [] none)),
        ("S", FetchResult.ok (Frame.mk [0, 1, 2] [1, 2, 3] [1, 1, 1] none)),
        ("G", FetchResult.ok (Frame.mk [0, 1, 2, 3, 4] [1, 2, 3, 4, 5] [1, 1, 1, 1, 1] none))] =
        pipelineMetrics ([("B", FetchResult.err),
          ("E", FetchResult.ok (Frame.mk [] [] [] none)),
          ("S", FetchResult.ok (Frame.mk [0, 1, 2] [1, 2, 3] [1, 1, 1] none)),
          ("G", FetchResult.ok (Frame.mk [0, 1, 2, 3, 4] [1, 2, 3, 4, 5] [1, 1, 1, 1, 1] none))].filter
            (fun p => decide (p.1 ≠ "B")))) :=
  ⟨by decide, C6_bad_symbol_isolated _ "B" 5 (by decide)⟩

/-! Claim C7: the NaN that escapes the metric engine (code bug). -/

/-- Invariant-satisfying series on which the code violates the no-NaN
invariant: five bars of positive close and zero volume (volume 0 is allowed —
the data-model invariant only forbids negative volume). -/
def frameC7 : Frame := Frame.mk [0, 1, 2, 3, 4] [1, 1, 1, 1, 1] [0, 0, 0, 0, 0] none

/-- Claim C7 fails on the code: on this invariant-satisfying 5-bar series the
mean volume is 0, line 88 computes `(0 − 0) / 0 = NaN`, and the NaN is stored
in the `volume_trend` field of the MetricRecord (no guard exists in
`calculate_metrics`), contradicting the documented every-field-finite-or-
fallback invariant. -/
theorem C7_volume_trend_nan :
    TimeSeriesInv frameC7 ∧ 5 ≤ frameC7.closes.length ∧
      (metricOf frameC7).volume_trend = FVal.nan := by
  refine ⟨⟨by norm_num [frameC7, List.chain'_cons], ?_, ?_, by decide, by decide⟩,
    by decide, ?_⟩
  · intro v hv
    fin_cases hv <;> norm_num
  · intro c hc
    fin_cases hc <;> norm_num
  · norm_num [frameC7, metricOf, qmean, qdiv, FVal.mulC]

/-! Claim C8: the metric engine mutates the fetched frames (line 77). -/

/-- A good 5-bar frame used to exhibit the mutation. -/
def frameC8 : Frame := Frame.mk [0, 1, 2, 3, 4] [1, 2, 3, 4, 5] [1, 1, 1, 1, 1] none

/-- Counterexample to claim C8 as stated: after `calculate_metrics` runs, the
stored frame differs from the fetched one — line 77 added the derived
`Returns` column in place. -/
theorem C8_counterexample :
    (calculate_metrics [("A", frameC8)]).2 ≠ [("A", frameC8)] := by
  simp [calculate_metrics, frameC8, addReturns, Frame.mk.injEq]

/-- Claim C8, amended: the metric engine never changes the fetched bar data —
for every store, symbols, dates, closes and volumes are unchanged after the
run; the only mutation is the addition of the derived `Returns` column to
each frame with at least 5 bars. -/
theorem C8_bar_data_unchanged (store : List (String × Frame)) :
    ((calculate_metrics store).2).map (fun p => (p.1, p.2.dates, p.2.closes, p.2.volumes)) =
      store.map (fun p => (p.1, p.2.dates, p.2.closes, p.2.volumes)) ∧
    (calculate_metrics store).2 =
      store.map (fun p => if p.2.closes.length < 5 then p else (p.1, addReturns p.2)) := by
  constructor
  · unfold calculate_metrics
    simp only [List.map_map]
    apply List.map_congr_left
    intro p _
    by_cases h : p.2.closes.length < 5 <;> simp [h, addReturns]
  · rfl

/-! Forecast-date and forecast-failure lemmas (claims C5 and C9). -/

lemma rollForward_ge (d : ℕ) : d ≤ rollForward d := by
  unfold rollForward
  split_ifs <;> omega

lemma bdateRange_length (start n : ℕ) : (bdateRange start n).length = n := by
  induction n generalizing start with
  | zero => rfl
  | succ n ih => simp [bdateRange, ih]

lemma bdateRange_chain (d n : ℕ) :
    List.Chain (fun a b => a < b ∧ b % 7 < 5 ∧ ∀ e, a < e → e % 7 < 5 → b ≤ e) d
      (bdateRange (d + 1) n) := by
  induction n generalizing d with
  | zero => exact List.Chain.nil
  | succ n ih =>
      unfold bdateRange
      refine List.Chain.cons ?_ (ih (rollForward (d + 1)))
      unfold rollForward
      split_ifs with h1 h2
      · exact ⟨by omega, by omega, fun e he1 he2 => by omega⟩
      · exact ⟨by omega, by omega, fun e he1 he2 => by omega⟩
      · exact ⟨by omega, by omega, fun e he1 he2 => by omega⟩

lemma bdateRange_mem (start n : ℕ) :
    ∀ x ∈ bdateRange start n, start ≤ x ∧ x % 7 < 5 := by
  induction n generalizing start with
  | zero => simp [bdateRange]
  | succ n ih =>
      intro x hx
      unfold bdateRange at hx
      rcases List.mem_cons.mp hx with rfl | hx'
      · refine ⟨rollForward_ge start, ?_⟩
        unfold rollForward
        split_ifs <;> omega
      · have := ih (rollForward start + 1) x hx'
        have hge := rollForward_ge start
        omega

lemma bdateRange_chain_lt (start n : ℕ) :
    List.Chain' (· < ·) (bdateRange start n) := by
  induction n generalizing start with
  | zero => exact List.chain'_nil
  | succ n ih =>
      unfold bdateRange
      refine List.chain'_cons'.mpr ⟨?_, ih (rollForward start + 1)⟩
      intro b hb
      have hmem : b ∈ bdateRange (rollForward start + 1) n := by
        cases n with
        | zero => simp [bdateRange] at hb
        | succ m =>
            unfold bdateRange at hb
            simp only [List.head?_cons, Option.mem_def, Option.some.injEq] at hb
            unfold bdateRange
            rw [← hb]
            exact List.mem_cons_self _ _
      have := (bdateRange_mem (rollForward start + 1) n b hmem).1
      omega

lemma holtFitForecast_ok (closes : List ℚ) (h2 : 2 ≤ closes.length) :
    ∃ vs, holtFitForecast closes = Except.ok vs ∧ vs.length = 7 := by
  match closes, h2 with
  | c0 :: c1 :: rest, _ =>
      refine ⟨_, rfl, ?_⟩
      rw [List.length_map, List.length_range]

/-- Claim C5, amended: for every historical closing series with at least 2
points (the spec's fit minimum; a 1-point series fails the fit, see the
counterexample and claim C9), the forecast engine succeeds with exactly 7
(date, value) pairs; the dates are strictly increasing, none is a Saturday or
Sunday, and starting from the last historical day each is the earliest
business day after its predecessor — so they immediately follow the last
historical trading day. -/
theorem C5_forecast_shape (lastDate : ℕ) (closes : List ℚ) (h2 : 2 ≤ closes.length) :
    ∃ out, forecastEngine lastDate closes = Except.ok out ∧
      out.length = 7 ∧
      out.map Prod.fst = forecastDates lastDate ∧
      List.Chain' (· < ·) (forecastDates lastDate) ∧
      (∀ d ∈ forecastDates lastDate, lastDate < d ∧ d % 7 < 5) ∧
      List.Chain (fun a b => a < b ∧ b % 7 < 5 ∧ ∀ e, a < e → e % 7 < 5 → b ≤ e)
        lastDate (forecastDates lastDate) := by
  rcases holtFitForecast_ok closes h2 with ⟨vs, hok, hlen⟩
  have hdlen : (forecastDates lastDate).length = 7 := bdateRange_length _ 7
  refine ⟨(forecastDates lastDate).zip vs, ?_, ?_, ?_, ?_, ?_, ?_⟩
  · rw [forecastEngine, hok]
    rfl
  · rw [List.length_zip, hlen, hdlen]
    exact min_self 7
  · exact List.map_fst_zip _ _ (by rw [hlen, hdlen])
  · exact bdateRange_chain_lt _ 7
  · intro d hd
    have := bdateRange_mem (lastDate + 1) 7 d hd
    omega
  · exact bdateRange_chain lastDate 7

/-- Witness for the amended C5: a 2-point series ending on a Friday
(day 4; day 0 is a Monday). -/
theorem C5_forecast_shape_witness :
    (2 ≤ ([1, 2] : List ℚ).length) ∧
    (∃ out, forecastEngine 4 [1, 2] = Except.ok out ∧
      out.length = 7 ∧
      out.map Prod.fst = forecastDates 4 ∧
      List.Chain' (· < ·) (forecastDates 4) ∧
      (∀ d ∈ forecastDates 4, 4 < d ∧ d % 7 < 5) ∧
      List.Chain (fun a b => a < b ∧ b % 7 < 5 ∧ ∀ e, a < e → e % 7 < 5 → b ≤ e)
        4 (forecastDates 4)) :=
  ⟨by decide, C5_forecast_shape 4 [1, 2] (by decide)⟩

/-- Counterexample to claim C5 as stated: the non-empty single-point series
`[100]` produces no forecast output at all — the fit fails (the spec's
forecast engine raises `InsufficientDataError` below 2 points), so there is
no 7-entry output for this non-empty series. -/
theorem C5_counterexample :
    (([100] : List ℚ) ≠ []) ∧ ∀ out, forecastEngine 0 [100] ≠ Except.ok out := by
  constructor
  · simp
  · intro out h
    simp [forecastEngine, holtFitForecast, Except.map] at h

/-- Claim C9: a closing series with fewer than 2 points makes the forecast
engine fail with `InsufficientDataError`, and the failure is local — the
metrics and the ranking of the combined run are exactly those of the
metric/ranking pipeline, whatever the forecast input was. -/
theorem C9_forecast_failure_local (raw : List (String × FetchResult)) (lastDate : ℕ)
    (closes : List ℚ) (h : closes.length < 2) :
    (runAll raw lastDate closes).forecastResult = Except.error ⟨⟩ ∧
    (runAll raw lastDate closes).metrics = pipelineMetrics raw ∧
    (runAll raw lastDate closes).ranking = predict_stocks (pipelineMetrics raw) 5 := by
  refine ⟨?_, rfl, rfl⟩
  match closes, h with
  | [], _ => rfl
  | [a], _ => rfl

/-- Witness for C9: an empty batch and a 1-point forecast series. -/
theorem C9_forecast_failure_local_witness :
    (([5] : List ℚ).length < 2) ∧
    ((runAll [] 0 [5]).forecastResult = Except.error ⟨⟩ ∧
      (runAll [] 0 [5]).metrics = pipelineMetrics [] ∧
      (runAll [] 0 [5]).ranking = predict_stocks (pipelineMetrics []) 5) :=
  ⟨by decide, C9_forecast_failure_local [] 0 [5] (by decide)⟩
